import Mathlib

/-!
Verification of the Hunter X-Core bus-protocol core (src/hunter_ctrl.cpp / hunter_ctrl.h).

The embedding models:
  * `HunterBitfield` (the bit frame builder) on frames represented as lists of
    byte values (`List Nat`, each entry < 256 in every reachable state);
  * the pulse encoder / bus transmitter (`HunterLow`, `HunterHigh`, `HunterWrite`)
    as producers of an explicit waveform, a list of line segments
    (level held for a duration in microseconds);
  * the command encoders `HunterStart`, `HunterStop`, `HunterProgram`, which
    validate their byte inputs and either fail (`Except.error`, matching the
    "invalid ..." report of the source) or return the populated frame together
    with the transmitted waveform;
  * the facade `HUNTER_CTRL::startZone` / `startProgram` as producers of an
    ordered trace of observable events (display updates, pump relay switching,
    bus transmission).  The compile-time configuration macro `USE_PUMP` of
    hunter_ctrl.h is modelled as the `usePump : Bool` parameter.
-/

namespace HunterCtrl

/-! ### Bit frame builder (hunter_ctrl.cpp, HunterBitfield) -/

/-- The bit of a frame at bit offset `q`, counted MSB-first across byte
boundaries: bit 0 is the most significant bit of byte 0. -/
def bitAt (bits : List Nat) (q : Nat) : Bool :=
  Nat.testBit (bits.getD (q / 8) 0) (7 - q % 8)

/-- The `if (val & 0x1)` true branch of `HunterBitfield`:
`bits[pos / 8] = bits[pos / 8] | 0x80 >> (pos % 8)`. -/
def setBitOn (bits : List Nat) (pos : Nat) : List Nat :=
  bits.set (pos / 8) (bits.getD (pos / 8) 0 ||| (0x80 >>> (pos % 8)))

/-- The `else` branch of `HunterBitfield`:
`bits[pos / 8] = bits[pos / 8] & ~(0x80 >> (pos % 8))`.  The entries are bytes
(values < 256), so the C complement of the 8-bit mask acts as `0xff ^^^ mask`. -/
def setBitOff (bits : List Nat) (pos : Nat) : List Nat :=
  bits.set (pos / 8) (bits.getD (pos / 8) 0 &&& (0xff ^^^ (0x80 >>> (pos % 8))))

/-- hunter_ctrl.cpp, `HunterBitfield(bits, pos, val, len)`: write the low `len`
bits of `val` into the frame, LSB of `val` at bit offset `pos`. -/
def HunterBitfield (bits : List Nat) (pos val : Nat) : Nat → List Nat
  | 0 => bits
  | len + 1 =>
      HunterBitfield (if val &&& 1 = 1 then setBitOn bits pos else setBitOff bits pos)
        (pos + 1) (val >>> 1) len

/-- Modelled from the spec (§4.1, §8): read `len` bits at bit offset `pos`
from a frame, with the same convention `HunterBitfield` writes (the bit at
offset `pos` is the least significant bit of the value). -/
def readField (bits : List Nat) (pos : Nat) : Nat → Nat
  | 0 => 0
  | len + 1 => (if bitAt bits pos then 1 else 0) + 2 * readField bits (pos + 1) len

/-! ### Pulse encoder / bus transmitter (HunterLow, HunterHigh, HunterWrite) -/

/-- One segment of the output waveform: the line held at `level`
(`true` = HIGH = `HUNTER_ONE`) for `micros` microseconds. -/
structure Seg where
  level : Bool
  micros : Nat
deriving DecidableEq

def START_INTERVAL : Nat := 900
def SHORT_INTERVAL : Nat := 208
def LONG_INTERVAL : Nat := 1875

/-- hunter_ctrl.cpp, `HunterLow`: a logical 0 bit pulse,
HIGH for 208 us then LOW for 1875 us. -/
def HunterLow : List Seg := [⟨true, SHORT_INTERVAL⟩, ⟨false, LONG_INTERVAL⟩]

/-- hunter_ctrl.cpp, `HunterHigh`: a logical 1 bit pulse,
HIGH for 1875 us then LOW for 208 us. -/
def HunterHigh : List Seg := [⟨true, LONG_INTERVAL⟩, ⟨false, SHORT_INTERVAL⟩]

/-- The inner loop of `HunterWrite`: emit `n` bits of byte `b`, high-order bit
first, shifting the byte left (with 8-bit truncation, `sendByte <<= 1`). -/
def byteOut (b : Nat) : Nat → List Seg
  | 0 => []
  | n + 1 => (if b &&& 0x80 ≠ 0 then HunterHigh else HunterLow) ++ byteOut ((b <<< 1) % 256) n

/-- hunter_ctrl.cpp, `HunterWrite(buffer, extrabit)`: reset impulse
(HIGH 325 ms, LOW 65 ms), start impulse (HIGH 900 us, LOW 208 us), the bytes
MSB-first, an optional extra 1 bit, and a final 0 stop bit.  Millisecond
delays are expressed in microseconds. -/
def HunterWrite (buffer : List Nat) (extrabit : Bool) : List Seg :=
  [⟨true, 325000⟩, ⟨false, 65000⟩]
    ++ [⟨true, START_INTERVAL⟩, ⟨false, SHORT_INTERVAL⟩]
    ++ (buffer.map fun b => byteOut b 8).flatten
    ++ (if extrabit then HunterHigh else [])
    ++ HunterLow

/-! ### Command encoders (HunterStart, HunterStop, HunterProgram) -/

/-- The fixed 15-byte zone-command template of `HunterStart`. -/
def zoneFrameBase : List Nat :=
  [0xff, 0x00, 0x00, 0x00, 0x10, 0x00, 0x00, 0x04, 0x00, 0x00, 0x01, 0x00, 0x01, 0xb8, 0x3f]

/-- The field writes of `HunterStart`, in source order, applied to the template. -/
def buildZoneFrame (zone time : Nat) : List Nat :=
  let b0 := zoneFrameBase
  let b1 := if zone > 12 then HunterBitfield b0 9 0x1 2 else HunterBitfield b0 9 0x2 2
  let b2 := HunterBitfield b1 23 (zone + 0x17) 7
  let b3 := HunterBitfield b2 36 (zone + 0x17) 7
  let b4 := HunterBitfield b3 49 (zone + 0x23) 7
  let b5 := HunterBitfield b4 62 (zone + 0x23) 7
  let b6 := HunterBitfield b5 75 (zone + 0x2f) 7
  let b7 := HunterBitfield b6 88 (zone + 0x2f) 7
  let b8 := HunterBitfield b7 31 time 4
  let b9 := HunterBitfield b8 44 (time >>> 4) 4
  let b10 := HunterBitfield b9 57 time 4
  let b11 := HunterBitfield b10 70 (time >>> 4) 4
  let b12 := HunterBitfield b11 83 time 4
  let b13 := HunterBitfield b12 96 (time >>> 4) 4
  HunterBitfield b13 109 (zone - 1) 4

/-- hunter_ctrl.cpp, `HunterStart(zone, time)` on byte arguments: validate,
then build the frame and transmit it with the extra trailing bit.  The result
is the populated frame together with the waveform put on the bus; a rejected
input produces the corresponding "invalid ..." report and no bus output. -/
def HunterStart (zone time : Nat) : Except String (List Nat × List Seg) :=
  if zone < 1 ∨ zone > 48 then .error "invalid zone"
  else if time < 0 ∨ time > 240 then .error "invalid time"
  else .ok (buildZoneFrame zone time, HunterWrite (buildZoneFrame zone time) true)

/-- hunter_ctrl.cpp, `HunterStop(zone)`: delegates to `HunterStart(zone, 0)`. -/
def HunterStop (zone : Nat) : Except String (List Nat × List Seg) :=
  HunterStart zone 0

/-- The fixed 7-byte program-command template of `HunterProgram`. -/
def progFrameBase : List Nat := [0xff, 0x40, 0x03, 0x96, 0x09, 0xbd, 0x7f]

/-- hunter_ctrl.cpp, `HunterProgram(num)` on a byte argument: validate, write
`num - 1` (2 bits) at offset 31, transmit without the extra trailing bit. -/
def HunterProgram (num : Nat) : Except String (List Nat × List Seg) :=
  if num < 1 ∨ num > 4 then .error "invalid program"
  else .ok (HunterBitfield progFrameBase 31 (num - 1) 2,
            HunterWrite (HunterBitfield progFrameBase 31 (num - 1) 2) false)

/-! ### Controller facade (HUNTER_CTRL::startZone / startProgram) -/

/-- Observable events of the facade, in occurrence order: display updates
(`oled->updateAction`, `oled->updateHunterInfo`), pump relay switching
(`digitalWrite` on the pump pin inside `switchPump`), and a bus transmission
(a call of `HunterWrite`, recorded with the waveform it drives). -/
inductive Event where
  | action (msg : String)
  | hunterInfo (zone time program : Int)
  | pump (onOff : Bool)
  | transmit (w : List Seg)
deriving DecidableEq

/-- The C cast `(byte)x` applied to an `int` argument: reduction mod 256. -/
def toByte (x : Int) : Nat := (x % 256).toNat

/-- `HUNTER_CTRL::switchPump(onOff)`: drives the pump pin only when the
configuration flag `USE_PUMP` (here the parameter `usePump`) is set. -/
def switchPump (usePump : Bool) (onOff : Bool) : List Event :=
  if usePump then [.pump onOff] else []

/-- `HUNTER_CTRL::startZone(zone, time)`: report to the display, switch the
pump on iff `time` is nonzero (as an `int`), then run `HunterStart` on the
byte-truncated arguments. -/
def startZone (usePump : Bool) (zone time : Int) : List Event :=
  [.action ("Watering zone " ++ toString zone ++ " -> " ++ toString time ++ " min"),
   .hunterInfo zone time 0]
    ++ (if time ≠ 0 then switchPump usePump true else switchPump usePump false)
    ++ (match HunterStart (toByte zone) (toByte time) with
        | .error _ => []
        | .ok (_, w) => [.transmit w])

/-- `HUNTER_CTRL::startProgram(programID)`: report to the display, then run
`HunterProgram` on the byte-truncated argument. -/
def startProgram (usePump : Bool) (programID : Int) : List Event :=
  [.action ("Watering prog " ++ toString programID ++ " ..."),
   .hunterInfo 0 0 programID]
    ++ (match HunterProgram (toByte programID) with
        | .error _ => []
        | .ok (_, w) => [.transmit w])

def isDisplay : Event → Bool
  | .action _ => true
  | .hunterInfo _ _ _ => true
  | _ => false

def isPump : Event → Bool
  | .pump _ => true
  | _ => false

def isTransmit : Event → Bool
  | .transmit _ => true
  | _ => false

/-- Modelled from the spec (§4.5): the display report comes only after the
transmission, i.e. no display event is followed by a later transmit event. -/
def reportOnlyAfterTransmit : List Event → Bool
  | [] => true
  | e :: rest => (!(isDisplay e) || !(rest.any isTransmit)) && reportOnlyAfterTransmit rest

/-- Every display event precedes every transmit event: no transmit event is
followed by a later display event. -/
def displayBeforeTransmit : List Event → Bool
  | [] => true
  | e :: rest => (!(isTransmit e) || !(rest.any isDisplay)) && displayBeforeTransmit rest

/-- Every pump event precedes every transmit event. -/
def pumpBeforeTransmit : List Event → Bool
  | [] => true
  | e :: rest => (!(isTransmit e) || !(rest.any isPump)) && pumpBeforeTransmit rest

/-! ### Spec-side definitions used by the refinement claims -/

/-- Modelled from the spec (§4.2, step 3): the pulse shape of one logical bit. -/
def specBitSegs (b : Bool) : List Seg :=
  if b then [⟨true, 1875⟩, ⟨false, 208⟩] else [⟨true, 208⟩, ⟨false, 1875⟩]

/-- Modelled from the spec (§4.2): reset (HIGH 325 ms, LOW 65 ms), start
(HIGH 900 us, LOW 208 us), then for each byte each bit MSB-first as a bit
pulse, an optional trailing 1 pulse, and a final 0 stop pulse. -/
def specTransmission (buffer : List Nat) (trailing : Bool) : List Seg :=
  [⟨true, 325000⟩, ⟨false, 65000⟩, ⟨true, 900⟩, ⟨false, 208⟩]
    ++ (buffer.map fun b => ((List.range 8).map fun i => specBitSegs (Nat.testBit b (7 - i))).flatten).flatten
    ++ (if trailing then specBitSegs true else [])
    ++ specBitSegs false

/-- Modelled from the spec (§8): decode (zone, time) back out of a zone frame
from the documented offsets: zone from the 7-bit field at offset 23 (value
`zone + 0x17`), time from the low nibble at offset 31 and high nibble at 44. -/
def HunterDecode (f : List Nat) : Nat × Nat :=
  (readField f 23 7 - 0x17, readField f 31 4 + 16 * readField f 44 4)

/-! ### Lemmas about the bit frame builder -/

theorem shiftRight_mask (k : Nat) (hk : k < 8) : 0x80 >>> k = 2 ^ (7 - k) := by
  interval_cases k <;> rfl

@[simp] theorem length_setBitOn (bits : List Nat) (pos : Nat) :
    (setBitOn bits pos).length = bits.length := by
  simp [setBitOn]

@[simp] theorem length_setBitOff (bits : List Nat) (pos : Nat) :
    (setBitOff bits pos).length = bits.length := by
  simp [setBitOff]

@[simp] theorem length_HunterBitfield :
    ∀ (len : Nat) (bits : List Nat) (pos val : Nat),
      (HunterBitfield bits pos val len).length = bits.length
  | 0, _, _, _ => rfl
  | len + 1, bits, pos, val => by
      rw [HunterBitfield, length_HunterBitfield len]
      split <;> simp

theorem bitAt_setBitOn_ne (bits : List Nat) (pos q : Nat) (h : q ≠ pos) :
    bitAt (setBitOn bits pos) q = bitAt bits q := by
  unfold bitAt setBitOn
  rcases Nat.lt_or_ge (pos / 8) bits.length with hl | hl
  · by_cases hd : q / 8 = pos / 8
    · have hm : q % 8 ≠ pos % 8 := fun hm => h (by omega)
      rw [hd, List.getD_eq_getElem?_getD, List.getElem?_set_self hl, Option.getD_some,
        shiftRight_mask _ (by omega), Nat.testBit_or,
        Nat.testBit_two_pow_of_ne (by omega), Bool.or_false,
        List.getD_eq_getElem?_getD]
    · rw [List.getD_eq_getElem?_getD, List.getElem?_set_ne (fun hc => hd hc.symm),
        List.getD_eq_getElem?_getD]
  · rw [List.set_eq_of_length_le hl]

theorem bitAt_setBitOff_ne (bits : List Nat) (pos q : Nat) (h : q ≠ pos) :
    bitAt (setBitOff bits pos) q = bitAt bits q := by
  unfold bitAt setBitOff
  rcases Nat.lt_or_ge (pos / 8) bits.length with hl | hl
  · by_cases hd : q / 8 = pos / 8
    · have hm : q % 8 ≠ pos % 8 := fun hm => h (by omega)
      rw [hd, List.getD_eq_getElem?_getD, List.getElem?_set_self hl, Option.getD_some,
        shiftRight_mask _ (by omega), Nat.testBit_and, Nat.testBit_xor,
        show (0xff : Nat) = 2 ^ 8 - 1 from rfl, Nat.testBit_two_pow_sub_one,
        Nat.testBit_two_pow_of_ne (by omega), decide_eq_true (show 7 - q % 8 < 8 by omega),
        Bool.xor_false, Bool.and_true, List.getD_eq_getElem?_getD]
    · rw [List.getD_eq_getElem?_getD, List.getElem?_set_ne (fun hc => hd hc.symm),
        List.getD_eq_getElem?_getD]
  · rw [List.set_eq_of_length_le hl]

theorem bitAt_setBitOn_self (bits : List Nat) (pos : Nat) (hl : pos / 8 < bits.length) :
    bitAt (setBitOn bits pos) pos = true := by
  unfold bitAt setBitOn
  rw [List.getD_eq_getElem?_getD, List.getElem?_set_self hl, Option.getD_some,
    shiftRight_mask _ (by omega), Nat.testBit_or, Nat.testBit_two_pow_self, Bool.or_true]

theorem bitAt_setBitOff_self (bits : List Nat) (pos : Nat) (hl : pos / 8 < bits.length) :
    bitAt (setBitOff bits pos) pos = false := by
  unfold bitAt setBitOff
  rw [List.getD_eq_getElem?_getD, List.getElem?_set_self hl, Option.getD_some,
    shiftRight_mask _ (by omega), Nat.testBit_and, Nat.testBit_xor,
    show (0xff : Nat) = 2 ^ 8 - 1 from rfl, Nat.testBit_two_pow_sub_one,
    Nat.testBit_two_pow_self, decide_eq_true (show 7 - pos % 8 < 8 by omega),
    Bool.true_xor, Bool.not_true, Bool.and_false]

/-- Bits outside the written range `[pos, pos + len)` are untouched. -/
theorem bitAt_HunterBitfield_outside :
    ∀ (len : Nat) (bits : List Nat) (pos val q : Nat), q < pos ∨ pos + len ≤ q →
      bitAt (HunterBitfield bits pos val len) q = bitAt bits q
  | 0, _, _, _, _, _ => rfl
  | len + 1, bits, pos, val, q, h => by
      rw [HunterBitfield, bitAt_HunterBitfield_outside len _ _ _ _ (by omega)]
      split
      · exact bitAt_setBitOn_ne _ _ _ (by omega)
      · exact bitAt_setBitOff_ne _ _ _ (by omega)

/-- Bit `i` of the written field equals bit `i` of the value. -/
theorem bitAt_HunterBitfield_inside :
    ∀ (len i : Nat) (bits : List Nat) (pos val : Nat), i < len →
      pos + len ≤ 8 * bits.length →
      bitAt (HunterBitfield bits pos val len) (pos + i) = val.testBit i
  | 0, i, _, _, _, hi, _ => absurd hi (Nat.not_lt_zero i)
  | len + 1, 0, bits, pos, val, _, hb => by
      have h1 : bitAt (HunterBitfield bits pos val (len + 1)) (pos + 0)
          = bitAt (if val &&& 1 = 1 then setBitOn bits pos else setBitOff bits pos) pos := by
        rw [HunterBitfield]
        exact bitAt_HunterBitfield_outside len _ _ _ _ (by omega)
      rw [h1]
      have hl : pos / 8 < bits.length := by omega
      rw [Nat.testBit_zero]
      split
      · rw [bitAt_setBitOn_self _ _ hl]
        have : val % 2 = 1 := by
          have := Nat.and_one_is_mod val
          omega
        simp [this]
      · rw [bitAt_setBitOff_self _ _ hl]
        have : val % 2 ≠ 1 := by
          have := Nat.and_one_is_mod val
          omega
        simp [this]
  | len + 1, i + 1, bits, pos, val, hi, hb => by
      rw [HunterBitfield, show pos + (i + 1) = (pos + 1) + i by omega,
        bitAt_HunterBitfield_inside len i _ (pos + 1) _ (by omega) (by split <;> simp <;> omega),
        Nat.shiftRight_succ, Nat.shiftRight_zero, Nat.testBit_add_one]

theorem mod_two_pow_succ (v k : Nat) : v % 2 ^ (k + 1) = v % 2 + 2 * (v / 2 % 2 ^ k) := by
  have hM : 0 < 2 ^ k := Nat.two_pow_pos k
  have h1 : v % 2 ^ (k + 1) = (2 * (v / 2) + v % 2) % (2 * 2 ^ k) := by
    rw [Nat.div_add_mod, Nat.pow_succ, Nat.mul_comm]
  rw [h1, Nat.add_mod, Nat.mul_mod_mul_left]
  have h3 := Nat.mod_lt (v / 2) hM
  have h4 : v % 2 < 2 := Nat.mod_lt _ (by omega)
  rw [Nat.mod_eq_of_lt (show v % 2 < 2 * 2 ^ k by omega),
    Nat.mod_eq_of_lt (show 2 * (v / 2 % 2 ^ k) + v % 2 < 2 * 2 ^ k by omega)]
  omega

/-- A field whose bits agree with `val` reads back as `val` mod `2 ^ len`. -/
theorem readField_of_testBit :
    ∀ (len : Nat) (bits : List Nat) (pos val : Nat),
      (∀ i, i < len → bitAt bits (pos + i) = val.testBit i) →
      readField bits pos len = val % 2 ^ len
  | 0, _, _, val, _ => by simp [readField, Nat.mod_one]
  | len + 1, bits, pos, val, h => by
      rw [readField, readField_of_testBit len bits (pos + 1) (val / 2)
        (fun i hi => by
          rw [show pos + 1 + i = pos + (i + 1) by omega, h (i + 1) (by omega),
            Nat.testBit_add_one]),
        mod_two_pow_succ]
      have h0 := h 0 (by omega)
      rw [Nat.add_zero, Nat.testBit_zero] at h0
      rw [h0]
      have : val % 2 < 2 := Nat.mod_lt _ (by omega)
      rcases Nat.lt_or_ge (val % 2) 1 with h1 | h1
      · rw [decide_eq_false (by omega)]
        simp
        omega
      · rw [decide_eq_true (by omega)]
        simp
        omega

/-- Read-after-write: the field written by `HunterBitfield` reads back as the
low `len` bits of the value. -/
theorem readField_HunterBitfield (bits : List Nat) (pos val len : Nat)
    (h : pos + len ≤ 8 * bits.length) :
    readField (HunterBitfield bits pos val len) pos len = val % 2 ^ len :=
  readField_of_testBit len _ pos val fun i hi =>
    bitAt_HunterBitfield_inside len i bits pos val hi h

/-- Reading a range disjoint from the written range is unaffected. -/
theorem readField_HunterBitfield_disjoint :
    ∀ (len : Nat) (bits : List Nat) (pos p v l : Nat), pos + len ≤ p ∨ p + l ≤ pos →
      readField (HunterBitfield bits p v l) pos len = readField bits pos len
  | 0, _, _, _, _, _, _ => rfl
  | len + 1, bits, pos, p, v, l, h => by
      rw [readField, readField,
        readField_HunterBitfield_disjoint len bits (pos + 1) p v l (by omega),
        bitAt_HunterBitfield_outside l bits p v pos (by omega)]

/-! ### Field values of the zone frame -/

@[simp] theorem length_zoneFrameBase : zoneFrameBase.length = 15 := rfl

@[simp] theorem length_progFrameBase : progFrameBase.length = 7 := rfl

/-- The zone-group conditional of `HunterStart`, with the condition pulled
into the written value. -/
theorem zoneGroupWrite_eq (z : Nat) :
    (if z > 12 then HunterBitfield zoneFrameBase 9 0x1 2
     else HunterBitfield zoneFrameBase 9 0x2 2)
      = HunterBitfield zoneFrameBase 9 (if z > 12 then 0x1 else 0x2) 2 := by
  split <;> rfl

theorem readField_buildZoneFrame_109 (z t : Nat) :
    readField (buildZoneFrame z t) 109 4 = (z - 1) % 16 := by
  simp only [buildZoneFrame]
  rw [zoneGroupWrite_eq, readField_HunterBitfield]
  · norm_num
  all_goals first | (simp only [length_HunterBitfield, length_zoneFrameBase]; omega) | norm_num

theorem readField_buildZoneFrame_96 (z t : Nat) :
    readField (buildZoneFrame z t) 96 4 = t / 16 % 16 := by
  simp only [buildZoneFrame]
  rw [zoneGroupWrite_eq, readField_HunterBitfield_disjoint, readField_HunterBitfield]
  · rw [Nat.shiftRight_eq_div_pow]; norm_num
  all_goals first | (simp only [length_HunterBitfield, length_zoneFrameBase]; omega) | norm_num

theorem readField_buildZoneFrame_83 (z t : Nat) :
    readField (buildZoneFrame z t) 83 4 = t % 16 := by
  simp only [buildZoneFrame]
  rw [zoneGroupWrite_eq]
  iterate 2 rw [readField_HunterBitfield_disjoint]
  rw [readField_HunterBitfield]
  · norm_num
  all_goals first | (simp only [length_HunterBitfield, length_zoneFrameBase]; omega) | norm_num

theorem readField_buildZoneFrame_70 (z t : Nat) :
    readField (buildZoneFrame z t) 70 4 = t / 16 % 16 := by
  simp only [buildZoneFrame]
  rw [zoneGroupWrite_eq]
  iterate 3 rw [readField_HunterBitfield_disjoint]
  rw [readField_HunterBitfield]
  · rw [Nat.shiftRight_eq_div_pow]; norm_num
  all_goals first | (simp only [length_HunterBitfield, length_zoneFrameBase]; omega) | norm_num

theorem readField_buildZoneFrame_57 (z t : Nat) :
    readField (buildZoneFrame z t) 57 4 = t % 16 := by
  simp only [buildZoneFrame]
  rw [zoneGroupWrite_eq]
  iterate 4 rw [readField_HunterBitfield_disjoint]
  rw [readField_HunterBitfield]
  · norm_num
  all_goals first | (simp only [length_HunterBitfield, length_zoneFrameBase]; omega) | norm_num

theorem readField_buildZoneFrame_44 (z t : Nat) :
    readField (buildZoneFrame z t) 44 4 = t / 16 % 16 := by
  simp only [buildZoneFrame]
  rw [zoneGroupWrite_eq]
  iterate 5 rw [readField_HunterBitfield_disjoint]
  rw [readField_HunterBitfield]
  · rw [Nat.shiftRight_eq_div_pow]; norm_num
  all_goals first | (simp only [length_HunterBitfield, length_zoneFrameBase]; omega) | norm_num

theorem readField_buildZoneFrame_31 (z t : Nat) :
    readField (buildZoneFrame z t) 31 4 = t % 16 := by
  simp only [buildZoneFrame]
  rw [zoneGroupWrite_eq]
  iterate 6 rw [readField_HunterBitfield_disjoint]
  rw [readField_HunterBitfield]
  · norm_num
  all_goals first | (simp only [length_HunterBitfield, length_zoneFrameBase]; omega) | norm_num

theorem readField_buildZoneFrame_88 (z t : Nat) :
    readField (buildZoneFrame z t) 88 7 = (z + 0x2f) % 128 := by
  simp only [buildZoneFrame]
  rw [zoneGroupWrite_eq]
  iterate 7 rw [readField_HunterBitfield_disjoint]
  rw [readField_HunterBitfield]
  · norm_num
  all_goals first | (simp only [length_HunterBitfield, length_zoneFrameBase]; omega) | norm_num

theorem readField_buildZoneFrame_75 (z t : Nat) :
    readField (buildZoneFrame z t) 75 7 = (z + 0x2f) % 128 := by
  simp only [buildZoneFrame]
  rw [zoneGroupWrite_eq]
  iterate 8 rw [readField_HunterBitfield_disjoint]
  rw [readField_HunterBitfield]
  · norm_num
  all_goals first | (simp only [length_HunterBitfield, length_zoneFrameBase]; omega) | norm_num

theorem readField_buildZoneFrame_62 (z t : Nat) :
    readField (buildZoneFrame z t) 62 7 = (z + 0x23) % 128 := by
  simp only [buildZoneFrame]
  rw [zoneGroupWrite_eq]
  iterate 9 rw [readField_HunterBitfield_disjoint]
  rw [readField_HunterBitfield]
  · norm_num
  all_goals first | (simp only [length_HunterBitfield, length_zoneFrameBase]; omega) | norm_num

theorem readField_buildZoneFrame_49 (z t : Nat) :
    readField (buildZoneFrame z t) 49 7 = (z + 0x23) % 128 := by
  simp only [buildZoneFrame]
  rw [zoneGroupWrite_eq]
  iterate 10 rw [readField_HunterBitfield_disjoint]
  rw [readField_HunterBitfield]
  · norm_num
  all_goals first | (simp only [length_HunterBitfield, length_zoneFrameBase]; omega) | norm_num

theorem readField_buildZoneFrame_36 (z t : Nat) :
    readField (buildZoneFrame z t) 36 7 = (z + 0x17) % 128 := by
  simp only [buildZoneFrame]
  rw [zoneGroupWrite_eq]
  iterate 11 rw [readField_HunterBitfield_disjoint]
  rw [readField_HunterBitfield]
  · norm_num
  all_goals first | (simp only [length_HunterBitfield, length_zoneFrameBase]; omega) | norm_num

theorem readField_buildZoneFrame_23 (z t : Nat) :
    readField (buildZoneFrame z t) 23 7 = (z + 0x17) % 128 := by
  simp only [buildZoneFrame]
  rw [zoneGroupWrite_eq]
  iterate 12 rw [readField_HunterBitfield_disjoint]
  rw [readField_HunterBitfield]
  · norm_num
  all_goals first | (simp only [length_HunterBitfield, length_zoneFrameBase]; omega) | norm_num

theorem readField_buildZoneFrame_9 (z t : Nat) :
    readField (buildZoneFrame z t) 9 2 = if z > 12 then 1 else 2 := by
  simp only [buildZoneFrame]
  rw [zoneGroupWrite_eq]
  iterate 13 rw [readField_HunterBitfield_disjoint]
  rw [readField_HunterBitfield]
  · split <;> norm_num
  all_goals first | (simp only [length_HunterBitfield, length_zoneFrameBase]; omega) | norm_num

/-- Every bit outside the fourteen written field ranges keeps its template value. -/
theorem bitAt_buildZoneFrame_outside (z t q : Nat)
    (h9 : q < 9 ∨ 11 ≤ q) (h23 : q < 23 ∨ 30 ≤ q) (h31 : q < 31 ∨ 35 ≤ q)
    (h36 : q < 36 ∨ 43 ≤ q) (h44 : q < 44 ∨ 48 ≤ q) (h49 : q < 49 ∨ 56 ≤ q)
    (h57 : q < 57 ∨ 61 ≤ q) (h62 : q < 62 ∨ 69 ≤ q) (h70 : q < 70 ∨ 74 ≤ q)
    (h75 : q < 75 ∨ 82 ≤ q) (h83 : q < 83 ∨ 87 ≤ q) (h88 : q < 88 ∨ 95 ≤ q)
    (h96 : q < 96 ∨ 100 ≤ q) (h109 : q < 109 ∨ 113 ≤ q) :
    bitAt (buildZoneFrame z t) q = bitAt zoneFrameBase q := by
  simp only [buildZoneFrame]
  rw [zoneGroupWrite_eq]
  iterate 14 rw [bitAt_HunterBitfield_outside]
  all_goals omega

/-! ### Claims -/

/-- C1: for every zone in [1,48] and time in [0,240], decoding the documented
bit offsets from the frame built by the zone command encoder reproduces
exactly the pair (zone, time). -/
theorem claim_C1 (z t : Nat) (f : List Nat) (w : List Seg)
    (hz1 : 1 ≤ z) (hz2 : z ≤ 48) (ht : t ≤ 240)
    (h : HunterStart z t = .ok (f, w)) : HunterDecode f = (z, t) := by
  unfold HunterStart at h
  rw [if_neg (show ¬(z < 1 ∨ z > 48) by omega),
    if_neg (show ¬(t < 0 ∨ t > 240) by omega), Except.ok.injEq, Prod.mk.injEq] at h
  obtain ⟨hf, -⟩ := h
  subst hf
  unfold HunterDecode
  rw [readField_buildZoneFrame_23, readField_buildZoneFrame_31, readField_buildZoneFrame_44,
    Prod.mk.injEq]
  constructor <;> omega

/-- Witness for C1: the encoder accepts zone 13, time 30 and the decoder
recovers (13, 30) from the resulting frame. -/
theorem claim_C1_witness :
    HunterStart 13 30 = .ok (buildZoneFrame 13 30, HunterWrite (buildZoneFrame 13 30) true)
  ∧ HunterDecode (buildZoneFrame 13 30) = (13, 30) :=
  ⟨rfl, claim_C1 13 30 (buildZoneFrame 13 30) (HunterWrite (buildZoneFrame 13 30) true)
    (by norm_num) (by norm_num) (by norm_num) rfl⟩

/-- C2: for every valid zone and time the encoder accepts, starts from the
fixed 15-byte template, and writes exactly the documented fields: the 2-bit
zone group at 9 (1 if zone > 12 else 2), zone + 0x17 at 23 and 36,
zone + 0x23 at 49 and 62, zone + 0x2f at 75 and 88, the duration low nibble
at 31, 57, 83 and high nibble at 44, 70, 96, and the 4-bit zone - 1 at 109;
every bit outside those ranges keeps its template value. -/
theorem claim_C2 (z t : Nat) (hz1 : 1 ≤ z) (hz2 : z ≤ 48) (ht : t ≤ 240) :
    HunterStart z t = .ok (buildZoneFrame z t, HunterWrite (buildZoneFrame z t) true)
  ∧ readField (buildZoneFrame z t) 9 2 = (if z > 12 then 1 else 2)
  ∧ readField (buildZoneFrame z t) 23 7 = z + 0x17
  ∧ readField (buildZoneFrame z t) 36 7 = z + 0x17
  ∧ readField (buildZoneFrame z t) 49 7 = z + 0x23
  ∧ readField (buildZoneFrame z t) 62 7 = z + 0x23
  ∧ readField (buildZoneFrame z t) 75 7 = z + 0x2f
  ∧ readField (buildZoneFrame z t) 88 7 = z + 0x2f
  ∧ readField (buildZoneFrame z t) 31 4 = t % 16
  ∧ readField (buildZoneFrame z t) 57 4 = t % 16
  ∧ readField (buildZoneFrame z t) 83 4 = t % 16
  ∧ readField (buildZoneFrame z t) 44 4 = t / 16
  ∧ readField (buildZoneFrame z t) 70 4 = t / 16
  ∧ readField (buildZoneFrame z t) 96 4 = t / 16
  ∧ readField (buildZoneFrame z t) 109 4 = (z - 1) % 16
  ∧ (∀ q, (q < 9 ∨ 11 ≤ q) ∧ (q < 23 ∨ 30 ≤ q) ∧ (q < 31 ∨ 35 ≤ q) ∧ (q < 36 ∨ 43 ≤ q)
        ∧ (q < 44 ∨ 48 ≤ q) ∧ (q < 49 ∨ 56 ≤ q) ∧ (q < 57 ∨ 61 ≤ q) ∧ (q < 62 ∨ 69 ≤ q)
        ∧ (q < 70 ∨ 74 ≤ q) ∧ (q < 75 ∨ 82 ≤ q) ∧ (q < 83 ∨ 87 ≤ q) ∧ (q < 88 ∨ 95 ≤ q)
        ∧ (q < 96 ∨ 100 ≤ q) ∧ (q < 109 ∨ 113 ≤ q) →
        bitAt (buildZoneFrame z t) q = bitAt zoneFrameBase q) := by
  refine ⟨?_, readField_buildZoneFrame_9 z t, ?_, ?_, ?_, ?_, ?_, ?_, ?_, ?_, ?_, ?_, ?_, ?_,
    readField_buildZoneFrame_109 z t, ?_⟩
  · unfold HunterStart
    rw [if_neg (show ¬(z < 1 ∨ z > 48) by omega), if_neg (show ¬(t < 0 ∨ t > 240) by omega)]
  · rw [readField_buildZoneFrame_23]; omega
  · rw [readField_buildZoneFrame_36]; omega
  · rw [readField_buildZoneFrame_49]; omega
  · rw [readField_buildZoneFrame_62]; omega
  · rw [readField_buildZoneFrame_75]; omega
  · rw [readField_buildZoneFrame_88]; omega
  · exact readField_buildZoneFrame_31 z t
  · exact readField_buildZoneFrame_57 z t
  · exact readField_buildZoneFrame_83 z t
  · rw [readField_buildZoneFrame_44]; omega
  · rw [readField_buildZoneFrame_70]; omega
  · rw [readField_buildZoneFrame_96]; omega
  · intro q hq
    obtain ⟨a9, a23, a31, a36, a44, a49, a57, a62, a70, a75, a83, a88, a96, a109⟩ := hq
    exact bitAt_buildZoneFrame_outside z t q a9 a23 a31 a36 a44 a49 a57 a62 a70 a75 a83 a88 a96 a109

/-- Witness for C2: the concrete case start(zone = 13, time = 30) of the spec:
zone group 1, 0x24 at 23 and 36, 0x30 at 49 and 62, 0x3c at 75 and 88, low
nibble 0xe and high nibble 0x1 triplicated, 0xc at 109. -/
theorem claim_C2_witness :
    readField (buildZoneFrame 13 30) 9 2 = 1 ∧ readField (buildZoneFrame 13 30) 23 7 = 0x24
  ∧ readField (buildZoneFrame 13 30) 36 7 = 0x24 ∧ readField (buildZoneFrame 13 30) 49 7 = 0x30
  ∧ readField (buildZoneFrame 13 30) 62 7 = 0x30 ∧ readField (buildZoneFrame 13 30) 75 7 = 0x3c
  ∧ readField (buildZoneFrame 13 30) 88 7 = 0x3c ∧ readField (buildZoneFrame 13 30) 31 4 = 0xe
  ∧ readField (buildZoneFrame 13 30) 57 4 = 0xe ∧ readField (buildZoneFrame 13 30) 83 4 = 0xe
  ∧ readField (buildZoneFrame 13 30) 44 4 = 0x1 ∧ readField (buildZoneFrame 13 30) 70 4 = 0x1
  ∧ readField (buildZoneFrame 13 30) 96 4 = 0x1
  ∧ readField (buildZoneFrame 13 30) 109 4 = 0xc := by
  obtain ⟨-, h9, h23, h36, h49, h62, h75, h88, h31, h57, h83, h44, h70, h96, h109, -⟩ :=
    claim_C2 13 30 (by norm_num) (by norm_num) (by norm_num)
  norm_num at h9
  exact ⟨h9, by omega, by omega, by omega, by omega, by omega, by omega, by omega,
    by omega, by omega, by omega, by omega, by omega, by omega⟩

/-- C7: `HunterBitfield` sets the `width` bits starting at bit offset `pos`
(MSB-first numbering across byte boundaries) to the low `width` bits of the
value, and leaves every bit outside `[pos, pos + width)` unchanged. -/
theorem claim_C7 (bits : List Nat) (pos val width : Nat)
    (h : pos + width ≤ 8 * bits.length) :
    readField (HunterBitfield bits pos val width) pos width = val % 2 ^ width
  ∧ ∀ q, q < pos ∨ pos + width ≤ q →
      bitAt (HunterBitfield bits pos val width) q = bitAt bits q :=
  ⟨readField_HunterBitfield bits pos val width h,
   fun q hq => bitAt_HunterBitfield_outside width bits pos val q hq⟩

/-- Witness for C7: a 4-bit write of 0x1d at offset 3 in a 2-byte buffer reads
back as 0x1d mod 16 and leaves bit 2 unchanged. -/
theorem claim_C7_witness :
    readField (HunterBitfield [0, 0] 3 0x1d 4) 3 4 = 0x1d % 2 ^ 4
  ∧ bitAt (HunterBitfield [0, 0] 3 0x1d 4) 2 = bitAt [0, 0] 2 :=
  ⟨(claim_C7 [0, 0] 3 0x1d 4 (by decide)).1,
   (claim_C7 [0, 0] 3 0x1d 4 (by decide)).2 2 (by decide)⟩

set_option maxRecDepth 40000 in
/-- The bits of a byte put on the bus by the inner loop of `HunterWrite` are
its eight bits, most significant first, each as its bit pulse. -/
theorem byteOut_eq_spec : ∀ b < 256,
    byteOut b 8 = ((List.range 8).map fun i => specBitSegs (Nat.testBit b (7 - i))).flatten := by
  decide

/-- C3: the transmission procedure produces exactly the documented waveform:
reset (HIGH 325 ms, LOW 65 ms), start (HIGH 900 us, LOW 208 us), each frame
byte MSB-first with a 1 bit as HIGH 1875 us / LOW 208 us and a 0 bit as
HIGH 208 us / LOW 1875 us, one extra 1 pulse when the trailing flag is set,
and a final 0 stop pulse. -/
theorem claim_C3 (buffer : List Nat) (extrabit : Bool) (h : ∀ b ∈ buffer, b < 256) :
    HunterWrite buffer extrabit = specTransmission buffer extrabit := by
  unfold HunterWrite specTransmission
  rw [List.map_congr_left fun b hb => byteOut_eq_spec b (h b hb)]
  cases extrabit <;>
    simp [HunterHigh, HunterLow, specBitSegs, START_INTERVAL, SHORT_INTERVAL, LONG_INTERVAL]

/-- Witness for C3 on the two-byte buffer [0xb8, 0x3f] with the trailing bit. -/
theorem claim_C3_witness :
    HunterWrite [0xb8, 0x3f] true = specTransmission [0xb8, 0x3f] true :=
  claim_C3 [0xb8, 0x3f] true (by decide)

/-- The transmit events of a `startZone` trace are exactly the transmission
`HunterStart` performs on the byte-truncated arguments. -/
theorem filter_isTransmit_startZone (u : Bool) (z t : Int) :
    (startZone u z t).filter isTransmit
      = match HunterStart (toByte z) (toByte t) with
        | .error _ => []
        | .ok (_, w) => [Event.transmit w] := by
  cases hS : HunterStart (toByte z) (toByte t) with
  | error e =>
      cases u <;> by_cases ht : t ≠ 0 <;>
        simp [startZone, switchPump, isTransmit, hS, ht]
  | ok r =>
      obtain ⟨f, w⟩ := r
      cases u <;> by_cases ht : t ≠ 0 <;>
        simp [startZone, switchPump, isTransmit, hS, ht]

/-- The transmit events of a `startProgram` trace are exactly the transmission
`HunterProgram` performs on the byte-truncated argument. -/
theorem filter_isTransmit_startProgram (u : Bool) (p : Int) :
    (startProgram u p).filter isTransmit
      = match HunterProgram (toByte p) with
        | .error _ => []
        | .ok (_, w) => [Event.transmit w] := by
  cases hS : HunterProgram (toByte p) with
  | error e => simp [startProgram, isTransmit, hS]
  | ok r =>
      obtain ⟨f, w⟩ := r
      simp [startProgram, isTransmit, hS]

/-- C4: out-of-range zones, times and program numbers are rejected with the
corresponding invalid-parameter report, nothing is transmitted (also through
the facade, where no transmit event is produced), and programs 1 to 4 are
accepted. -/
theorem claim_C4 :
    (∀ z t, z < 1 ∨ 48 < z → HunterStart z t = .error "invalid zone")
  ∧ (∀ z t, 1 ≤ z → z ≤ 48 → 240 < t → HunterStart z t = .error "invalid time")
  ∧ (∀ p, p < 1 ∨ 4 < p → HunterProgram p = .error "invalid program")
  ∧ (∀ p, 1 ≤ p → p ≤ 4 → ∃ r, HunterProgram p = .ok r)
  ∧ (∀ (u : Bool) (z t : Int), toByte z < 1 ∨ 48 < toByte z ∨ 240 < toByte t →
      (startZone u z t).filter isTransmit = [])
  ∧ (∀ (u : Bool) (p : Int), toByte p < 1 ∨ 4 < toByte p →
      (startProgram u p).filter isTransmit = []) := by
  refine ⟨?_, ?_, ?_, ?_, ?_, ?_⟩
  · intro z t h
    unfold HunterStart
    rw [if_pos (show z < 1 ∨ z > 48 by omega)]
  · intro z t h1 h2 h3
    unfold HunterStart
    rw [if_neg (show ¬(z < 1 ∨ z > 48) by omega), if_pos (show t < 0 ∨ t > 240 by omega)]
  · intro p h
    unfold HunterProgram
    rw [if_pos (show p < 1 ∨ p > 4 by omega)]
  · intro p h1 h2
    unfold HunterProgram
    rw [if_neg (show ¬(p < 1 ∨ p > 4) by omega)]
    exact ⟨_, rfl⟩
  · intro u z t h
    have hS : ∃ e, HunterStart (toByte z) (toByte t) = .error e := by
      unfold HunterStart
      by_cases hz : toByte z < 1 ∨ toByte z > 48
      · exact ⟨_, by rw [if_pos hz]⟩
      · exact ⟨_, by rw [if_neg hz, if_pos (show toByte t < 0 ∨ toByte t > 240 by omega)]⟩
    obtain ⟨e, hS⟩ := hS
    rw [filter_isTransmit_startZone, hS]
  · intro u p h
    have hS : HunterProgram (toByte p) = .error "invalid program" := by
      unfold HunterProgram
      rw [if_pos (show toByte p < 1 ∨ toByte p > 4 by omega)]
    rw [filter_isTransmit_startProgram, hS]

/-- Witness for C4 at zone 0, zone 49, time 241, program 0, program 5 and the
accepted program 2, plus the facade producing no transmit event at zone 0. -/
theorem claim_C4_witness :
    HunterStart 0 5 = .error "invalid zone" ∧ HunterStart 49 5 = .error "invalid zone"
  ∧ HunterStart 1 241 = .error "invalid time" ∧ HunterProgram 0 = .error "invalid program"
  ∧ HunterProgram 5 = .error "invalid program" ∧ (∃ r, HunterProgram 2 = .ok r)
  ∧ (startZone false 0 5).filter isTransmit = [] :=
  ⟨claim_C4.1 0 5 (by norm_num), claim_C4.1 49 5 (by norm_num),
   claim_C4.2.1 1 241 (by norm_num) (by norm_num) (by norm_num),
   claim_C4.2.2.1 0 (by norm_num), claim_C4.2.2.1 5 (by norm_num),
   claim_C4.2.2.2.1 2 (by norm_num) (by norm_num),
   claim_C4.2.2.2.2.1 false 0 5 (Or.inl (by decide))⟩

/-- C5: the stop-zone operation is exactly the start-zone operation with
duration 0, frame and transmission included; there is no separate stop frame
shape. -/
theorem claim_C5 (z : Nat) : HunterStop z = HunterStart z 0 := rfl

theorem length_byteOut : ∀ (n b : Nat), (byteOut b n).length = 2 * n
  | 0, _ => rfl
  | n + 1, b => by
      rw [byteOut]
      split <;> simp [HunterHigh, HunterLow, length_byteOut n] <;> omega

theorem length_flatten_byteOut : ∀ (buf : List Nat),
    ((buf.map fun b => byteOut b 8).flatten).length = 16 * buf.length
  | [] => rfl
  | b :: rest => by
      simp only [List.map_cons, List.flatten_cons, List.length_append, length_byteOut,
        length_flatten_byteOut rest, List.length_cons]
      omega

theorem length_HunterWrite (buf : List Nat) (eb : Bool) :
    (HunterWrite buf eb).length = 4 + 16 * buf.length + (if eb then 2 else 0) + 2 := by
  cases eb <;>
    simp only [HunterWrite, List.append_assoc, List.length_append, length_flatten_byteOut,
      HunterHigh, HunterLow, List.length_cons, List.length_nil, Bool.false_eq_true,
      if_false, if_true] <;>
    omega

@[simp] theorem length_zoneGroupWrite (z : Nat) :
    (if z > 12 then HunterBitfield zoneFrameBase 9 0x1 2
     else HunterBitfield zoneFrameBase 9 0x2 2).length = 15 := by
  split <;> rfl

theorem length_buildZoneFrame (z t : Nat) : (buildZoneFrame z t).length = 15 := by
  simp [buildZoneFrame]

/-- C6: every accepted zone command is transmitted with the trailing bit, for
a waveform of 4 reset/start segments plus 2 segments for each of the
15 * 8 + 1 + 1 = 122 bit pulses; every accepted program command is
transmitted without the trailing bit, 7 * 8 + 1 = 57 bit pulses. -/
theorem claim_C6 :
    (∀ z t f w, HunterStart z t = .ok (f, w) →
        w = HunterWrite f true ∧ f.length = 15 ∧ w.length = 4 + 2 * (15 * 8 + 1 + 1))
  ∧ (∀ p f w, HunterProgram p = .ok (f, w) →
        w = HunterWrite f false ∧ f.length = 7 ∧ w.length = 4 + 2 * (7 * 8 + 1)) := by
  constructor
  · intro z t f w h
    unfold HunterStart at h
    split at h
    · simp at h
    split at h
    · simp at h
    rw [Except.ok.injEq, Prod.mk.injEq] at h
    obtain ⟨hf, hw⟩ := h
    subst hf
    subst hw
    refine ⟨rfl, length_buildZoneFrame z t, ?_⟩
    rw [length_HunterWrite, length_buildZoneFrame]
    norm_num
  · intro p f w h
    unfold HunterProgram at h
    split at h
    · simp at h
    rw [Except.ok.injEq, Prod.mk.injEq] at h
    obtain ⟨hf, hw⟩ := h
    subst hf
    subst hw
    refine ⟨rfl, by simp, ?_⟩
    rw [length_HunterWrite]
    simp

/-- Witness for C6 at the accepted commands start(1, 20) and program 2. -/
theorem claim_C6_witness :
    HunterStart 1 20 = .ok (buildZoneFrame 1 20, HunterWrite (buildZoneFrame 1 20) true)
  ∧ (HunterWrite (buildZoneFrame 1 20) true).length = 4 + 2 * (15 * 8 + 1 + 1)
  ∧ HunterProgram 2 = .ok (HunterBitfield progFrameBase 31 (2 - 1) 2,
      HunterWrite (HunterBitfield progFrameBase 31 (2 - 1) 2) false)
  ∧ (HunterWrite (HunterBitfield progFrameBase 31 (2 - 1) 2) false).length
      = 4 + 2 * (7 * 8 + 1) :=
  ⟨rfl,
   (claim_C6.1 1 20 (buildZoneFrame 1 20) (HunterWrite (buildZoneFrame 1 20) true) rfl).2.2,
   rfl,
   (claim_C6.2 2 (HunterBitfield progFrameBase 31 (2 - 1) 2)
     (HunterWrite (HunterBitfield progFrameBase 31 (2 - 1) 2) false) rfl).2.2⟩

/-- C8 counterexample: on start-zone(1, 5) the facade updates the display and
only then transmits, refuting the claim that the display report never
precedes the transmission. -/
theorem claim_C8_counterexample :
    reportOnlyAfterTransmit (startZone false 1 5) = false := rfl

/-- C8 (amended): the facade reports the status string and the zone/time/program
triple to the display before the transmission: in every startZone and
startProgram trace every display event precedes every transmit event. -/
theorem claim_C8 :
    (∀ (u : Bool) (z t : Int), displayBeforeTransmit (startZone u z t) = true)
  ∧ (∀ (u : Bool) (p : Int), displayBeforeTransmit (startProgram u p) = true) := by
  constructor
  · intro u z t
    cases hS : HunterStart (toByte z) (toByte t) with
    | error e =>
        cases u <;> by_cases ht : t ≠ 0 <;>
          simp [startZone, switchPump, displayBeforeTransmit, isDisplay, isTransmit, hS, ht]
    | ok r =>
        obtain ⟨f, w⟩ := r
        cases u <;> by_cases ht : t ≠ 0 <;>
          simp [startZone, switchPump, displayBeforeTransmit, isDisplay, isTransmit, hS, ht]
  · intro u p
    cases hS : HunterProgram (toByte p) with
    | error e => simp [startProgram, displayBeforeTransmit, isDisplay, isTransmit, hS]
    | ok r =>
        obtain ⟨f, w⟩ := r
        simp [startProgram, displayBeforeTransmit, isDisplay, isTransmit, hS]

/-- C9: with pump control enabled, every start-zone call produces exactly one
pump event, engaged exactly when the duration is nonzero (disengaged when it
is zero), and the pump event precedes any transmission. -/
theorem claim_C9 (z t : Int) :
    (startZone true z t).filter isPump = [Event.pump (decide (t ≠ 0))]
  ∧ pumpBeforeTransmit (startZone true z t) = true := by
  constructor
  · cases hS : HunterStart (toByte z) (toByte t) with
    | error e =>
        by_cases ht : t ≠ 0 <;> simp [startZone, switchPump, isPump, isTransmit, hS, ht]
    | ok r =>
        obtain ⟨f, w⟩ := r
        by_cases ht : t ≠ 0 <;> simp [startZone, switchPump, isPump, isTransmit, hS, ht]
  · cases hS : HunterStart (toByte z) (toByte t) with
    | error e =>
        by_cases ht : t ≠ 0 <;>
          simp [startZone, switchPump, pumpBeforeTransmit, isPump, isTransmit, hS, ht]
    | ok r =>
        obtain ⟨f, w⟩ := r
        by_cases ht : t ≠ 0 <;>
          simp [startZone, switchPump, pumpBeforeTransmit, isPump, isTransmit, hS, ht]

theorem toByte_add_256 (z : Int) : toByte (z + 256) = toByte z := by
  unfold toByte
  omega

/-- C10: the facade truncates its int arguments to bytes before validation, so
acceptance is decided on the argument mod 256: a zone command transmits iff
the truncated zone is in [1, 48] and the truncated time is at most 240 (so a
negative duration is never rejected by the dead time < 0 check), shifting an
argument by 256 changes nothing, start-zone(1, 256) transmits duration 0,
start-zone(260, 7) transmits zone 4, start-zone(3, -56) transmits duration
200, and a program command transmits iff the truncated program is in [1, 4]. -/
theorem claim_C10 :
    (∀ (u : Bool) (z t : Int), (startZone u z t).filter isTransmit ≠ []
        ↔ (1 ≤ toByte z ∧ toByte z ≤ 48 ∧ toByte t ≤ 240))
  ∧ (∀ (u : Bool) (z t : Int), (startZone u (z + 256) t).filter isTransmit
        = (startZone u z t).filter isTransmit)
  ∧ (∀ (u : Bool) (z t : Int), (startZone u z (t + 256)).filter isTransmit
        = (startZone u z t).filter isTransmit)
  ∧ (∀ u : Bool, (startZone u 1 256).filter isTransmit
        = [Event.transmit (HunterWrite (buildZoneFrame 1 0) true)])
  ∧ (∀ u : Bool, (startZone u 260 7).filter isTransmit
        = [Event.transmit (HunterWrite (buildZoneFrame 4 7) true)])
  ∧ (∀ u : Bool, (startZone u 3 (-56)).filter isTransmit
        = [Event.transmit (HunterWrite (buildZoneFrame 3 200) true)])
  ∧ (∀ (u : Bool) (p : Int), (startProgram u p).filter isTransmit ≠ []
        ↔ (1 ≤ toByte p ∧ toByte p ≤ 4)) := by
  refine ⟨?_, ?_, ?_, ?_, ?_, ?_, ?_⟩
  · intro u z t
    rw [filter_isTransmit_startZone]
    unfold HunterStart
    by_cases h1 : toByte z < 1 ∨ toByte z > 48
    · rw [if_pos h1]
      simp <;> omega
    · by_cases h2 : toByte t < 0 ∨ toByte t > 240
      · rw [if_neg h1, if_pos h2]
        simp <;> omega
      · rw [if_neg h1, if_neg h2]
        simp <;> omega
  · intro u z t
    rw [filter_isTransmit_startZone, filter_isTransmit_startZone, toByte_add_256]
  · intro u z t
    rw [filter_isTransmit_startZone, filter_isTransmit_startZone, toByte_add_256]
  · intro u
    rw [filter_isTransmit_startZone]
    rfl
  · intro u
    rw [filter_isTransmit_startZone]
    rfl
  · intro u
    rw [filter_isTransmit_startZone]
    rfl
  · intro u p
    rw [filter_isTransmit_startProgram]
    unfold HunterProgram
    by_cases h1 : toByte p < 1 ∨ toByte p > 4
    · rw [if_pos h1]
      simp <;> omega
    · rw [if_neg h1]
      simp <;> omega

end HunterCtrl
